import Mathlib

/-!
Verification of the OpenEcs entity/component storage core.

This file gives a shallow embedding, in Lean, of the storage and iteration
core of the OpenEcs library (EntityManager, ComponentManager, BasePool,
Iterator, the component-type counter), translated from the C++ sources:
  include/EntityManager.inl, include/Pool.inl, src/ecs/Iterator.inl,
  src/ecs/ComponentManager.inl, src/ecs/Utils.h, src/ecs/Defines.h.

Modelling conventions:
  - index_t / size_t / version values are Nat; the uint8 entity version is
    reduced mod 256 exactly where the C++ increment overflows; the one
    place where size_t wrap-around is observable (the post-decrement of
    entities_left in the bulk create loop) is modelled explicitly.
  - std::vector fields become List Nat, with the vector back at the list
    head for the stack-like vectors (free lists and per-mask block lists),
    and positional indexing (List.getD, List.set) for the others.
    Out-of-range vector reads, undefined behaviour in C++, read the
    default value 0; out-of-range writes are dropped.
  - the two unordered_map-backed accessors (free list and block list per
    component mask) become total functions from the mask, defaulting to
    the empty list, matching operator-bracket default construction.
  - per-component object pools are abstracted to a constructed-ness
    predicate (which component index is constructed at which slot); the
    byte-level pool itself is modelled separately as BasePool.
-/

namespace OpenEcs

/-- ECS_CACHE_LINE_SIZE: slots per archetype block (Defines.h). -/
def cacheLineSize : Nat := 64

/-- ECS_MAX_NUM_OF_COMPONENTS: width of the component mask (Defines.h). -/
def maxComponents : Nat := 64

/-- The modulus of size_t arithmetic. -/
def usizeMod : Nat := 2 ^ 64

/-- std::vector::resize on a vector of zero-initialised numbers:
truncate when shrinking, pad with zeroes when growing. -/
def listResize (l : List Nat) (n : Nat) : List Nat :=
  l.take n ++ List.replicate (n - l.length) 0

/-- An entity Id: (index, version) as in Id.h. -/
abbrev EntId := Nat × Nat

/-- The EntityManager state (EntityManager.h).  Fields mirror the members:
entity_versions_, component_masks_, the per-mask IndexAccessor split into
its free_list and block_index vectors, next_free_indexes_,
index_to_component_mask, block_count_, count_.  The constructed field
abstracts the per-component ComponentManager pools: constructed c i means
a component with dense index c is constructed at slot i. -/
structure World where
  entity_versions : List Nat
  component_masks : List Nat
  free_lists : Nat → List Nat
  block_lists : Nat → List Nat
  next_free_indexes : List Nat
  index_to_component_mask : List Nat
  block_count : Nat
  live_count : Nat
  constructed : Nat → Nat → Bool

/-- A freshly constructed EntityManager (the constructor only reserves). -/
def initialWorld : World :=
  ⟨[], [], fun _ => [], fun _ => [], [], [], 0, 0, fun _ _ => false⟩

/-- EntityManager::get_entity(index): stamp the index with the version
currently stored at that index. -/
def getEntity (w : World) (i : Nat) : EntId :=
  (i, w.entity_versions.getD i 0)

/-- EntityManager::is_valid: index in range and version matches. -/
def isValid (w : World) (e : EntId) : Prop :=
  e.1 < w.entity_versions.length ∧ w.entity_versions.getD e.1 0 = e.2

instance (w : World) (e : EntId) : Decidable (isValid w e) := by
  unfold isValid; infer_instance

/-- EntityManager::create_new_block: push the current block count onto the
mask's block list, grow the two per-block vectors, and record the next
free offset and the creating mask for the new block. -/
def createNewBlock (w : World) (m : Nat) (nextFree : Nat) : World :=
  { w with
    block_lists := fun m' => if m' = m then w.block_count :: w.block_lists m' else w.block_lists m',
    next_free_indexes :=
      (listResize w.next_free_indexes (w.block_count + 1)).set w.block_count nextFree,
    index_to_component_mask :=
      (listResize w.index_to_component_mask (w.block_count + 1)).set w.block_count m }

/-- EntityManager::find_new_entity_index: pop the mask's free list if
non-empty; else use the tail block's next free slot if one remains; else
create a fresh block (with next free offset 1) and return its base.
The returned pair is (index, updated manager). -/
def findNewEntityIndex (w : World) (m : Nat) : Nat × World :=
  match w.free_lists m with
  | i :: rest =>
    (i, { w with free_lists := fun m' => if m' = m then rest else w.free_lists m' })
  | [] =>
    match w.block_lists m with
    | b :: _ =>
      let cur := w.next_free_indexes.getD b 0
      if cur < cacheLineSize then
        (cur + cacheLineSize * b,
         { w with next_free_indexes := w.next_free_indexes.set b (cur + 1) })
      else
        let w' := createNewBlock w m 1
        (w'.block_count * cacheLineSize, { w' with block_count := w'.block_count + 1 })
    | [] =>
      let w' := createNewBlock w m 1
      (w'.block_count * cacheLineSize, { w' with block_count := w'.block_count + 1 })

/-- EntityManager::create_with_mask (single entity): bump the live count,
find an index, grow the two per-entity vectors if needed, return the
entity handle for the index. -/
def createWithMask (w : World) (m : Nat) : EntId × World :=
  let w1 := { w with live_count := w.live_count + 1 }
  let r := findNewEntityIndex w1 m
  let w2 := r.2
  let w3 :=
    if w2.entity_versions.length < r.1 + 1 then
      { w2 with
        entity_versions := listResize w2.entity_versions (r.1 + 1),
        component_masks := listResize w2.component_masks (r.1 + 1) }
    else w2
  (getEntity w3 r.1, w3)

/-- EntityManager::remove_all_components: destroy every component whose
bit is set at the slot and clear those mask bits.  (Every set bit has a
live ComponentManager in any state the C++ API can produce, since bits
are only set by create_component, which instantiates the manager; so the
walk over existing managers clears the whole mask.) -/
def removeAllComponents (w : World) (i : Nat) : World :=
  { w with
    constructed := fun c j =>
      if j = i ∧ (w.component_masks.getD i 0).testBit c then false else w.constructed c j,
    component_masks := w.component_masks.set i 0 }

/-- EntityManager::destroy: remove all components (which asserts the
entity is valid first; an assertion failure aborts before any mutation,
modelled as the identity), increment the slot's uint8 version, push the
index onto the free list keyed by the creating mask of the slot's block,
and decrement the live count. -/
def destroyOp (w : World) (e : EntId) : World :=
  if isValid w e then
    let i := e.1
    let w1 := removeAllComponents w i
    let w2 := { w1 with
      entity_versions :=
        w1.entity_versions.set i ((w1.entity_versions.getD i 0 + 1) % 256) }
    let bm := w2.index_to_component_mask.getD (i / cacheLineSize) 0
    let w3 := { w2 with
      free_lists := fun m' => if m' = bm then i :: w2.free_lists m' else w2.free_lists m' }
    { w3 with live_count := w3.live_count - 1 }
  else w

/-- EntityManager::create_component (the add path): requires a valid
entity, a component index below the cap, and the bit clear; constructs
the component and sets the bit.  A failed assertion aborts, modelled as
the identity. -/
def addComponent (w : World) (c : Nat) (e : EntId) : World :=
  if isValid w e ∧ c < maxComponents ∧ ¬ (w.component_masks.getD e.1 0).testBit c then
    { w with
      constructed := fun c' j => if c' = c ∧ j = e.1 then true else w.constructed c' j,
      component_masks :=
        w.component_masks.set e.1 (w.component_masks.getD e.1 0 ||| 2 ^ c) }
  else w

/-- EntityManager::remove_component via ComponentManager::remove: requires
a valid entity with the bit set; destroys the component and resets the
bit (xor clears a bit known to be set). -/
def removeComponent (w : World) (c : Nat) (e : EntId) : World :=
  if isValid w e ∧ (w.component_masks.getD e.1 0).testBit c then
    { w with
      constructed := fun c' j => if c' = c ∧ j = e.1 then false else w.constructed c' j,
      component_masks :=
        w.component_masks.set e.1 ((w.component_masks.getD e.1 0) ^^^ 2 ^ c) }
  else w

/-- EntityManager::clear_mask: reset the whole mask, leaving components
constructed. -/
def clearMaskOp (w : World) (e : EntId) : World :=
  if isValid w e then
    { w with component_masks := w.component_masks.set e.1 0 }
  else w

/-- details::component_mask over a list of component indices. -/
def componentMaskOf (cs : List Nat) : Nat :=
  cs.foldr (fun c m => 2 ^ c ||| m) 0

/-- EntityManager::create_with with a component list: allocate one slot
for the combined mask, then add each component to the returned entity. -/
def createWithComponents (w : World) (cs : List Nat) : EntId × World :=
  let r := createWithMask w (componentMaskOf cs)
  (r.1, cs.foldl (fun wa c => addComponent wa c r.1) r.2)

/-- The free-list drain loop of the bulk create_with_mask:
while (not free_list.empty() and entities_left--) pop the back and record
its index.  The condition post-decrements a size_t, so when the free list
is still non-empty with no entities left, entities_left underflows to
2 ^ 64 - 1 and the loop exits.  Returns (popped indices in pop order,
remaining free list, remaining entities_left). -/
def drainFreeList : List Nat → Nat → List Nat × List Nat × Nat
  | [], left => ([], [], left)
  | f :: fs, 0 => ([], f :: fs, usizeMod - 1)
  | f :: fs, Nat.succ k =>
    let r := drainFreeList fs k
    (f :: r.1, r.2.1, r.2.2)

/-- The block-filling loop of the bulk create_with_mask: fill the current
block from offset cur, creating fresh blocks (with next free offset left
at 0) as needed.  The local fill cursor is never written back to
next_free_indexes_, exactly as in the source.  The source's outer while
loop creates a block only when entities are left and then necessarily
consumes a slot of the new block on the next inner iteration; the
definition fuses those two steps so the recursion is structural on the
number of entities left. -/
def fillBlocks (w : World) (m : Nat) (blk cur : Nat) : Nat → List EntId × World
  | 0 => ([], w)
  | Nat.succ k =>
    if cur < cacheLineSize then
      let e := getEntity w (cur + cacheLineSize * blk)
      let r := fillBlocks w m blk (cur + 1) k
      (e :: r.1, r.2)
    else
      let w' := createNewBlock w m 0
      let w2 := { w' with block_count := w'.block_count + 1 }
      let e := getEntity w2 (0 + cacheLineSize * w.block_count)
      let r := fillBlocks w2 m w.block_count 1 k
      (e :: r.1, r.2)

/-- EntityManager::create_with_mask (bulk): drain the free list, compute
the slots required (size_t arithmetic, so the underflowed entities_left
wraps), resize the per-entity vectors to exactly that (std::vector resize
also shrinks), fill the tail block and fresh blocks, and add the number
of requested entities to the live count. -/
def createManyWithMask (w : World) (m : Nat) (n : Nat) : List EntId × World :=
  let d := drainFreeList (w.free_lists m) n
  let ents1 := d.1.map (getEntity w)
  let w1 := { w with free_lists := fun m' => if m' = m then d.2.1 else w.free_lists m' }
  let left := d.2.2
  let tb := w1.block_lists m
  let blk := tb.headD 0
  let cur := if tb = [] then cacheLineSize else w1.next_free_indexes.getD blk 0
  let slots :=
    if tb = [] then (w1.block_count * cacheLineSize + left) % usizeMod
    else (w1.block_count * cacheLineSize + cur + left) % usizeMod
  let w2 := { w1 with
    entity_versions := listResize w1.entity_versions slots,
    component_masks := listResize w1.component_masks slots }
  let r := fillBlocks w2 m blk cur left
  (ents1 ++ r.1, { r.2 with live_count := r.2.live_count + n })

/-- The public mutating operations of the EntityManager. -/
inductive Op where
  | create (m : Nat)
  | createMany (m n : Nat)
  | createWith (cs : List Nat)
  | add (c : Nat) (e : EntId)
  | remove (c : Nat) (e : EntId)
  | removeAll (e : EntId)
  | clearMask (e : EntId)
  | destroy (e : EntId)
deriving DecidableEq

/-- One step of the EntityManager: apply an operation to the state. -/
def applyOp (w : World) : Op → World
  | .create m => (createWithMask w m).2
  | .createMany m n => (createManyWithMask w m n).2
  | .createWith cs => (createWithComponents w cs).2
  | .add c e => addComponent w c e
  | .remove c e => removeComponent w c e
  | .removeAll e => if isValid w e then removeAllComponents w e.1 else w
  | .clearMask e => clearMaskOp w e
  | .destroy e => destroyOp w e

/-- Run a sequence of operations from a state. -/
def runOps (w : World) (ops : List Op) : World :=
  ops.foldl applyOp w

/-! ### The query iterator (Iterator.inl) -/

/-- Iterator::find_next: advance the cursor past non-matching slots; the
captured size bounds the walk. -/
def iterFindNext (masks : List Nat) (m sz cur : Nat) : Nat :=
  if cur < sz ∧ ¬ ((masks.getD cur 0) &&& m = m) then iterFindNext masks m sz (cur + 1)
  else cur
termination_by sz - cur
decreasing_by exact Nat.sub_lt_sub_left (by omega) (Nat.lt_succ_self cur)

theorem le_iterFindNext (masks : List Nat) (m sz cur : Nat) :
    cur ≤ iterFindNext masks m sz cur := by
  rw [iterFindNext]
  split
  · exact le_trans (Nat.le_succ cur) (le_iterFindNext masks m sz (cur + 1))
  · exact le_refl cur
termination_by sz - cur
decreasing_by exact Nat.sub_lt_sub_left (by omega) (Nat.lt_succ_self cur)

/-- The loop body of a range-for over a View: starting from a cursor
produced by find_next, yield the cursor while it differs from the end
cursor (the captured size), stepping with operator++ (increment then
find_next). -/
def iterCollect (masks : List Nat) (m sz cur : Nat) : List Nat :=
  if h : cur < sz then
    cur :: iterCollect masks m sz (iterFindNext masks m sz (cur + 1))
  else []
termination_by sz - cur
decreasing_by
  exact Nat.sub_lt_sub_left h (Nat.lt_of_lt_of_le (Nat.lt_succ_self cur)
    (le_iterFindNext masks m sz (cur + 1)))

/-- The sequence of slot indices a View for the required mask m yields,
walking from the begin iterator (find_next from cursor 0) to the end
iterator (cursor = size captured at construction). -/
def iterIndices (w : World) (m : Nat) : List Nat :=
  let sz := w.entity_versions.length
  iterCollect w.component_masks m sz (iterFindNext w.component_masks m sz 0)

/-! ### BasePool (Pool.inl) -/

/-- BasePool: chunked type-erased storage.  Chunk pointers are abstracted
to numeric tokens; a fresh chunk gets the current chunk count as its
token, so distinct chunks of one pool have distinct tokens. -/
structure BasePool where
  size_ : Nat
  capacity_ : Nat
  element_size_ : Nat
  chunk_size_ : Nat
  chunks_ : List Nat
deriving DecidableEq

/-- BasePool::ensure_min_capacity: while min_capacity >= capacity_,
append a chunk and grow capacity_ by chunk_size_.  With chunk_size_ = 0
the C++ loop never terminates; the model guards on a positive chunk size
and the theorems assume it. -/
def ensureMinCapacity (p : BasePool) (minCapacity : Nat) : BasePool :=
  if p.capacity_ ≤ minCapacity ∧ 0 < p.chunk_size_ then
    ensureMinCapacity
      { p with
        chunks_ := p.chunks_ ++ [p.chunks_.length],
        capacity_ := p.capacity_ + p.chunk_size_ } minCapacity
  else p
termination_by minCapacity + 1 - p.capacity_
decreasing_by omega

/-- BasePool::ensure_min_size: grow capacity if needed, then raise the
logical size. -/
def ensureMinSize (p : BasePool) (n : Nat) : BasePool :=
  if p.size_ ≤ n then
    let p' := if p.capacity_ ≤ n then ensureMinCapacity p n else p
    { p' with size_ := n }
  else p

/-! ### The component type counter (Utils.h) -/

/-- details::inc_component_counter: hand out the current counter value as
the index, advance the counter, and check the assertion
index < ECS_MAX_NUM_OF_COMPONENTS (false means the process aborts).
Returns ((index, assertion holds), new counter). -/
def incComponentCounter (counter : Nat) : (Nat × Bool) × Nat :=
  ((counter, decide (counter < maxComponents)), counter + 1)

/-- Register n distinct component types in sequence from a counter state,
recording each assigned index and whether its assertion held. -/
def registerTypes : Nat → Nat → List (Nat × Bool)
  | _, 0 => []
  | counter, Nat.succ k =>
    let r := incComponentCounter counter
    r.1 :: registerTypes r.2 k

/-! ### Helper lemmas -/

theorem listResize_length (l : List Nat) (n : Nat) : (listResize l n).length = n := by
  simp only [listResize, List.length_append, List.length_take, List.length_replicate]
  omega

theorem getD_replicate_zero (k j : Nat) : (List.replicate k (0 : Nat)).getD j 0 = 0 := by
  by_cases h : j < k
  · rw [List.getD_eq_getElem _ _ (by simpa using h)]
    exact List.getElem_replicate _ _
  · exact List.getD_eq_default _ _ (by simpa using Nat.le_of_not_lt h)

theorem listResize_getD_of_le (l : List Nat) {n : Nat} (h : l.length ≤ n) (i : Nat) :
    (listResize l n).getD i 0 = l.getD i 0 := by
  have ht : l.take n = l := List.take_of_length_le h
  rw [listResize, ht]
  by_cases hi : i < l.length
  · rw [List.getD_append _ _ _ _ hi]
  · rw [List.getD_append_right _ _ _ _ (Nat.le_of_not_lt hi),
        List.getD_eq_default _ _ (Nat.le_of_not_lt hi), getD_replicate_zero]

theorem getD_set_self (l : List Nat) (i x : Nat) (h : i < l.length) :
    (l.set i x).getD i 0 = x := by
  rw [List.getD_eq_getElem _ _ (by simpa using h)]
  exact List.getElem_set_self _

theorem getD_set_ne (l : List Nat) {i j : Nat} (x : Nat) (h : i ≠ j) :
    (l.set i x).getD j 0 = l.getD j 0 := by
  by_cases hj : j < l.length
  · rw [List.getD_eq_getElem _ _ (by simpa using hj), List.getD_eq_getElem _ _ hj]
    exact List.getElem_set_ne h _
  · rw [List.getD_eq_default _ _ (by simpa using Nat.le_of_not_lt hj),
        List.getD_eq_default _ _ (Nat.le_of_not_lt hj)]

/-! ### C8: component type cap -/

/-- C8: registering distinct component types hands out the dense indices
0, 1, ... in order: the first MAX_COMPONENTS (64) registrations all pass
the assertion and receive pairwise distinct indices below MAX_COMPONENTS,
and the 65th registration fails the assertion in inc_component_counter
(aborting the process). -/
theorem componentTypeCap :
    registerTypes 0 maxComponents = (List.range maxComponents).map (fun k => (k, true))
    ∧ ((registerTypes 0 maxComponents).map Prod.fst).Nodup
    ∧ ((registerTypes 0 maxComponents).map Prod.fst).all (fun k => decide (k < maxComponents)) = true
    ∧ (registerTypes 0 maxComponents).all (fun p => p.2) = true
    ∧ registerTypes 0 (maxComponents + 1)
        = ((List.range maxComponents).map (fun k => (k, true))) ++ [(maxComponents, false)] := by
  refine ⟨by decide, by decide, by decide, by decide, by decide⟩

/-! ### C9: indexed access always yields a currently-valid handle -/

/-- C9: for any index below the entity-table length, get_entity stamps the
handle with the version currently stored at that index, so is_valid always
holds for it (also when the slot was destroyed and sits on a free list). -/
theorem getEntity_always_valid (w : World) (i : Nat) (h : i < w.entity_versions.length) :
    isValid w (getEntity w i) :=
  ⟨h, rfl⟩

/-- Witness for C9 at a concrete destroyed slot: after one create and one
destroy, slot 0 is on a free list and not live, yet the handle returned by
indexed access passes is_valid. -/
theorem getEntity_always_valid_witness :
    isValid (runOps initialWorld [Op.create 0, Op.destroy (0, 0)])
      (getEntity (runOps initialWorld [Op.create 0, Op.destroy (0, 0)]) 0) :=
  getEntity_always_valid _ 0 (by decide)

/-! ### C10: pool capacity growth -/

theorem ensureMinCapacity_chunk_size (p : BasePool) (n : Nat) :
    (ensureMinCapacity p n).chunk_size_ = p.chunk_size_ := by
  rw [ensureMinCapacity]
  split
  · exact ensureMinCapacity_chunk_size _ n
  · rfl
termination_by n + 1 - p.capacity_
decreasing_by omega

theorem lt_ensureMinCapacity_capacity (p : BasePool) (n : Nat) (hcs : 0 < p.chunk_size_) :
    n < (ensureMinCapacity p n).capacity_ := by
  rw [ensureMinCapacity]
  split
  · exact lt_ensureMinCapacity_capacity _ n hcs
  · omega
termination_by n + 1 - p.capacity_
decreasing_by omega

theorem ensureMinCapacity_capacity_mod (p : BasePool) (n : Nat)
    (h : p.capacity_ % p.chunk_size_ = 0) :
    (ensureMinCapacity p n).capacity_ % p.chunk_size_ = 0 := by
  rw [ensureMinCapacity]
  split
  · exact ensureMinCapacity_capacity_mod _ n (by simpa using h)
  · exact h
termination_by n + 1 - p.capacity_
decreasing_by omega

theorem ensureMinCapacity_chunks_take (p : BasePool) (n : Nat) :
    (ensureMinCapacity p n).chunks_.take p.chunks_.length = p.chunks_ := by
  rw [ensureMinCapacity]
  split
  · have ih := ensureMinCapacity_chunks_take
      { p with chunks_ := p.chunks_ ++ [p.chunks_.length],
               capacity_ := p.capacity_ + p.chunk_size_ } n
    have ih' : (ensureMinCapacity
        { p with chunks_ := p.chunks_ ++ [p.chunks_.length],
                 capacity_ := p.capacity_ + p.chunk_size_ } n).chunks_.take
          (p.chunks_.length + 1) = p.chunks_ ++ [p.chunks_.length] := by
      simpa using ih
    calc (ensureMinCapacity
        { p with chunks_ := p.chunks_ ++ [p.chunks_.length],
                 capacity_ := p.capacity_ + p.chunk_size_ } n).chunks_.take p.chunks_.length
        = ((ensureMinCapacity
            { p with chunks_ := p.chunks_ ++ [p.chunks_.length],
                     capacity_ := p.capacity_ + p.chunk_size_ } n).chunks_.take
              (p.chunks_.length + 1)).take p.chunks_.length := by
          rw [List.take_take]
          congr 1
          omega
      _ = (p.chunks_ ++ [p.chunks_.length]).take p.chunks_.length := by rw [ih']
      _ = p.chunks_ := by
          rw [List.take_append_of_le_length (Nat.le_refl _), List.take_length]
  · exact List.take_length _
termination_by n + 1 - p.capacity_
decreasing_by omega

theorem ensureMinCapacity_idem (p : BasePool) (n : Nat) (hcs : 0 < p.chunk_size_) :
    ensureMinCapacity (ensureMinCapacity p n) n = ensureMinCapacity p n := by
  conv_lhs => rw [ensureMinCapacity]
  split
  · exfalso
    have := lt_ensureMinCapacity_capacity p n hcs
    omega
  · rfl

/-- C10: with a positive chunk size, ensure_min_capacity(n) grows the
capacity until it strictly exceeds n (so a call with n equal to the
current capacity still appends a chunk), capacity stays a multiple of the
chunk size, the previously stored chunk pointers keep their positions
(the old chunk list is a prefix of the new one), and repeating the call
with the same n changes nothing. -/
theorem ensureMinCapacity_contract (p : BasePool) (n : Nat) (hcs : 0 < p.chunk_size_)
    (hmod : p.capacity_ % p.chunk_size_ = 0) :
    n < (ensureMinCapacity p n).capacity_
    ∧ (ensureMinCapacity p n).capacity_ % p.chunk_size_ = 0
    ∧ (ensureMinCapacity p n).chunks_.take p.chunks_.length = p.chunks_
    ∧ ensureMinCapacity (ensureMinCapacity p n) n = ensureMinCapacity p n
    ∧ p.capacity_ < (ensureMinCapacity p p.capacity_).capacity_ :=
  ⟨lt_ensureMinCapacity_capacity p n hcs,
   ensureMinCapacity_capacity_mod p n hmod,
   ensureMinCapacity_chunks_take p n,
   ensureMinCapacity_idem p n hcs,
   lt_ensureMinCapacity_capacity p p.capacity_ hcs⟩

/-- Witness for C10: a pool with 64-element chunks and capacity 0,
asked for a minimum capacity of 64. -/
theorem ensureMinCapacity_contract_witness :
    64 < (ensureMinCapacity ⟨0, 0, 4, 64, []⟩ 64).capacity_
    ∧ (ensureMinCapacity ⟨0, 0, 4, 64, []⟩ 64).capacity_ % 64 = 0
    ∧ (ensureMinCapacity ⟨0, 0, 4, 64, []⟩ 64).chunks_.take 0 = []
    ∧ ensureMinCapacity (ensureMinCapacity ⟨0, 0, 4, 64, []⟩ 64) 64
        = ensureMinCapacity ⟨0, 0, 4, 64, []⟩ 64
    ∧ 0 < (ensureMinCapacity ⟨0, 0, 4, 64, []⟩ 0).capacity_ :=
  ensureMinCapacity_contract ⟨0, 0, 4, 64, []⟩ 64 (by decide) (by decide)

/-! ### C3: single-slot allocation policy -/

/-- C3: find_new_entity_index follows the three-level policy.  If the
mask's free list is non-empty, its back is popped and returned and the
block bookkeeping is untouched.  Otherwise, if the mask has a tail block
whose next-free offset is below the block size (64), the result is the
block base plus that offset and the offset is post-incremented.
Otherwise a fresh block is created: its next-free offset is set to 1, its
creating mask recorded, the block is appended to the mask's block list,
the block count grows by one, and the new block's base index is
returned. -/
theorem findNewEntityIndex_contract (w : World) (m : Nat) :
    (∀ i rest, w.free_lists m = i :: rest →
      (findNewEntityIndex w m).1 = i
      ∧ (findNewEntityIndex w m).2.free_lists m = rest
      ∧ (findNewEntityIndex w m).2.next_free_indexes = w.next_free_indexes
      ∧ (findNewEntityIndex w m).2.block_count = w.block_count)
    ∧ (∀ b bs, w.free_lists m = [] → w.block_lists m = b :: bs →
      w.next_free_indexes.getD b 0 < cacheLineSize →
      (findNewEntityIndex w m).1 = w.next_free_indexes.getD b 0 + cacheLineSize * b
      ∧ (findNewEntityIndex w m).2.next_free_indexes
          = w.next_free_indexes.set b (w.next_free_indexes.getD b 0 + 1)
      ∧ (findNewEntityIndex w m).2.block_count = w.block_count
      ∧ (findNewEntityIndex w m).2.block_lists m = w.block_lists m)
    ∧ (w.free_lists m = [] →
      (∀ b, (w.block_lists m).head? = some b → cacheLineSize ≤ w.next_free_indexes.getD b 0) →
      (findNewEntityIndex w m).1 = w.block_count * cacheLineSize
      ∧ (findNewEntityIndex w m).2.block_count = w.block_count + 1
      ∧ (findNewEntityIndex w m).2.next_free_indexes.getD w.block_count 0 = 1
      ∧ (findNewEntityIndex w m).2.index_to_component_mask.getD w.block_count 0 = m
      ∧ (findNewEntityIndex w m).2.block_lists m = w.block_count :: w.block_lists m) := by
  refine ⟨?_, ?_, ?_⟩
  · intro i rest hfl
    simp only [findNewEntityIndex, hfl]
    simp
  · intro b bs hfl hbl hcur
    simp only [findNewEntityIndex, hfl, hbl, if_pos hcur]
    simp
  · intro hfl hfull
    have hset1 : ((listResize w.next_free_indexes (w.block_count + 1)).set w.block_count 1).getD
        w.block_count 0 = 1 :=
      getD_set_self _ _ _ (by rw [listResize_length]; omega)
    have hsetm : ((listResize w.index_to_component_mask (w.block_count + 1)).set w.block_count
        m).getD w.block_count 0 = m :=
      getD_set_self _ _ _ (by rw [listResize_length]; omega)
    cases hbl : w.block_lists m with
    | nil =>
      simp only [findNewEntityIndex, hfl, hbl, createNewBlock]
      exact ⟨by simp, by simp, hset1, hsetm, by simp [hbl]⟩
    | cons b bs =>
      have hge : cacheLineSize ≤ w.next_free_indexes.getD b 0 := hfull b (by rw [hbl]; rfl)
      simp only [findNewEntityIndex, hfl, hbl, if_neg (Nat.not_lt.mpr hge), createNewBlock]
      exact ⟨by simp, by simp, hset1, hsetm, by simp [hbl]⟩

/-- Witness for C3, exercising the free-list case at a concrete state
with free list [5] for mask 1. -/
theorem findNewEntityIndex_contract_witness :
    (findNewEntityIndex
        { initialWorld with free_lists := fun m => if m = 1 then [5] else [] } 1).1 = 5
    ∧ (findNewEntityIndex
        { initialWorld with free_lists := fun m => if m = 1 then [5] else [] } 1).2.free_lists 1
        = []
    ∧ (findNewEntityIndex
        { initialWorld with free_lists := fun m => if m = 1 then [5] else [] }
        1).2.next_free_indexes = []
    ∧ (findNewEntityIndex
        { initialWorld with free_lists := fun m => if m = 1 then [5] else [] } 1).2.block_count
        = 0 :=
  (findNewEntityIndex_contract
      { initialWorld with free_lists := fun m => if m = 1 then [5] else [] } 1).1 5 [] (by simp)

/-! ### C2: effect of destroy -/

/-- C2: destroying a live entity destroys exactly the components whose
bits are set in the slot's mask (leaving every other slot's components
alone), increments the uint8 generation at the slot (mod 256) while other
slots' generations are untouched, pushes the index onto the free list
keyed by the mask recorded for the slot's block at block creation (not
the entity's current mask), decrements the live count by one, and leaves
the slot's mask empty. -/
theorem destroy_contract (w : World) (e : EntId) (hv : isValid w e)
    (hm : e.1 < w.component_masks.length) :
    (∀ c j, (destroyOp w e).constructed c j
        = if j = e.1 ∧ (w.component_masks.getD e.1 0).testBit c then false
          else w.constructed c j)
    ∧ (destroyOp w e).entity_versions.getD e.1 0 = (w.entity_versions.getD e.1 0 + 1) % 256
    ∧ (∀ s, s ≠ e.1 → (destroyOp w e).entity_versions.getD s 0 = w.entity_versions.getD s 0)
    ∧ (∀ mk, (destroyOp w e).free_lists mk
        = if mk = w.index_to_component_mask.getD (e.1 / cacheLineSize) 0
          then e.1 :: w.free_lists mk else w.free_lists mk)
    ∧ (destroyOp w e).live_count = w.live_count - 1
    ∧ (destroyOp w e).component_masks.getD e.1 0 = 0 := by
  refine ⟨fun c j => ?_, ?_, fun s hs => ?_, fun mk => ?_, ?_, ?_⟩
  · simp only [destroyOp, if_pos hv, removeAllComponents]
  · simp only [destroyOp, if_pos hv, removeAllComponents]
    exact getD_set_self _ _ _ (by simpa using hv.1)
  · simp only [destroyOp, if_pos hv, removeAllComponents]
    exact getD_set_ne _ _ (fun h => hs h.symm)
  · simp only [destroyOp, if_pos hv, removeAllComponents]
  · simp only [destroyOp, if_pos hv, removeAllComponents]
  · simp only [destroyOp, if_pos hv, removeAllComponents]
    exact getD_set_self _ _ _ hm

/-- Witness for C2: destroying the entity created by one create with a
component attached; its generation goes 0 to 1 and the mask is cleared. -/
theorem destroy_contract_witness :
    (destroyOp (runOps initialWorld [Op.createWith [0]]) (0, 0)).entity_versions.getD 0 0
      = ((runOps initialWorld [Op.createWith [0]]).entity_versions.getD 0 0 + 1) % 256
    ∧ (destroyOp (runOps initialWorld [Op.createWith [0]]) (0, 0)).component_masks.getD 0 0
      = 0 :=
  ⟨(destroy_contract (runOps initialWorld [Op.createWith [0]]) (0, 0)
      (by decide) (by decide)).2.1,
   (destroy_contract (runOps initialWorld [Op.createWith [0]]) (0, 0)
      (by decide) (by decide)).2.2.2.2.2⟩

/-! ### Versions are only touched by destroy (groundwork for C6) -/

theorem findNewEntityIndex_versions (w : World) (m : Nat) :
    (findNewEntityIndex w m).2.entity_versions = w.entity_versions := by
  rcases hfl : w.free_lists m with _ | ⟨i, rest⟩
  · rcases hbl : w.block_lists m with _ | ⟨b, bs⟩
    · simp [findNewEntityIndex, hfl, hbl, createNewBlock]
    · simp only [findNewEntityIndex, hfl, hbl]
      split
      · rfl
      · simp [createNewBlock]
  · simp [findNewEntityIndex, hfl]

theorem createWithMask_versions_getD (w : World) (m s : Nat) :
    (createWithMask w m).2.entity_versions.getD s 0 = w.entity_versions.getD s 0 := by
  unfold createWithMask
  have hf := findNewEntityIndex_versions { w with live_count := w.live_count + 1 } m
  dsimp only at hf ⊢
  split
  · next hlt =>
    rw [listResize_getD_of_le _ (by omega) s, hf]
  · rw [hf]

theorem addComponent_versions (w : World) (c : Nat) (e : EntId) :
    (addComponent w c e).entity_versions = w.entity_versions := by
  unfold addComponent
  split <;> rfl

theorem removeComponent_versions (w : World) (c : Nat) (e : EntId) :
    (removeComponent w c e).entity_versions = w.entity_versions := by
  unfold removeComponent
  split <;> rfl

theorem clearMaskOp_versions (w : World) (e : EntId) :
    (clearMaskOp w e).entity_versions = w.entity_versions := by
  unfold clearMaskOp
  split <;> rfl

theorem addFold_versions (cs : List Nat) (w : World) (e : EntId) :
    (cs.foldl (fun wa c => addComponent wa c e) w).entity_versions = w.entity_versions := by
  induction cs generalizing w with
  | nil => rfl
  | cons c cs ih => rw [List.foldl_cons, ih, addComponent_versions]

theorem createWithComponents_versions_getD (w : World) (cs : List Nat) (s : Nat) :
    (createWithComponents w cs).2.entity_versions.getD s 0 = w.entity_versions.getD s 0 := by
  unfold createWithComponents
  dsimp only
  rw [addFold_versions, createWithMask_versions_getD]

theorem fillBlocks_versions (left : Nat) : ∀ (w : World) (m blk cur : Nat),
    (fillBlocks w m blk cur left).2.entity_versions = w.entity_versions := by
  induction left with
  | zero => intro w m blk cur; rfl
  | succ k ih =>
    intro w m blk cur
    rw [fillBlocks]
    split
    · exact ih w m blk (cur + 1)
    · exact ih _ m w.block_count 1

theorem createManyWithMask_versions (w : World) (m n : Nat) :
    ∃ k, (createManyWithMask w m n).2.entity_versions = listResize w.entity_versions k := by
  unfold createManyWithMask
  dsimp only
  rw [fillBlocks_versions]
  exact ⟨_, rfl⟩

/-! ### C6: generation changes only under destroy, by one, mod 256 -/

/-- The operation is a destroy aimed at slot s (valid or not). -/
def destroysSlot (op : Op) (s : Nat) : Prop :=
  ∃ e, op = Op.destroy e ∧ e.1 = s

theorem applyOp_versions_getD_of_not_destroy (w : World) (op : Op) (s : Nat)
    (hgrow : w.entity_versions.length ≤ (applyOp w op).entity_versions.length)
    (hnd : ¬ destroysSlot op s) :
    (applyOp w op).entity_versions.getD s 0 = w.entity_versions.getD s 0 := by
  cases op with
  | create m => exact createWithMask_versions_getD w m s
  | createMany m n =>
    obtain ⟨k, hk⟩ := createManyWithMask_versions w m n
    have hlen : (createManyWithMask w m n).2.entity_versions.length = k := by
      rw [hk, listResize_length]
    simp only [applyOp] at hgrow ⊢
    rw [hk]
    exact listResize_getD_of_le _ (by omega) s
  | createWith cs => exact createWithComponents_versions_getD w cs s
  | add c e => rw [applyOp, addComponent_versions]
  | remove c e => rw [applyOp, removeComponent_versions]
  | removeAll e =>
    simp only [applyOp]
    split <;> rfl
  | clearMask e => rw [applyOp, clearMaskOp_versions]
  | destroy e =>
    have hne : e.1 ≠ s := fun h => hnd ⟨e, rfl, h⟩
    simp only [applyOp, destroyOp]
    split
    · exact getD_set_ne _ _ hne
    · rfl

/-- C6: the generation stored at a slot changes only when a destroy hits
that slot, and then it is incremented exactly once, modulo 256 (the
generation is an 8-bit counter); every other operation leaves it
unchanged, so across any operation sequence the value at a slot is
non-decreasing except at the 255-to-0 wrap of an increment.  The
hypothesis excludes an operation shrinking the entity table, which only
the buggy bulk-create resize can do (see the C4 analysis). -/
theorem generation_contract (w : World) (op : Op) (s : Nat)
    (hgrow : w.entity_versions.length ≤ (applyOp w op).entity_versions.length) :
    (¬ destroysSlot op s →
      (applyOp w op).entity_versions.getD s 0 = w.entity_versions.getD s 0)
    ∧ (∀ e, op = Op.destroy e → isValid w e → e.1 = s →
      (applyOp w op).entity_versions.getD s 0 = (w.entity_versions.getD s 0 + 1) % 256)
    ∧ ((applyOp w op).entity_versions.getD s 0 = w.entity_versions.getD s 0
      ∨ (applyOp w op).entity_versions.getD s 0 = (w.entity_versions.getD s 0 + 1) % 256) := by
  have hbump : ∀ e, op = Op.destroy e → isValid w e → e.1 = s →
      (applyOp w op).entity_versions.getD s 0 = (w.entity_versions.getD s 0 + 1) % 256 := by
    rintro e rfl hv rfl
    simp only [applyOp, destroyOp, if_pos hv, removeAllComponents]
    exact getD_set_self _ _ _ (by simpa using hv.1)
  refine ⟨applyOp_versions_getD_of_not_destroy w op s hgrow, hbump, ?_⟩
  by_cases hd : destroysSlot op s
  · obtain ⟨e, rfl, rfl⟩ := hd
    by_cases hv : isValid w e
    · exact Or.inr (hbump e rfl hv rfl)
    · left
      simp only [applyOp, destroyOp, if_neg hv]
  · exact Or.inl (applyOp_versions_getD_of_not_destroy w op s hgrow hd)

/-- Witness for C6: destroying the single created entity at slot 0 bumps
its generation from 0 to 1 = (0 + 1) % 256. -/
theorem generation_contract_witness :
    (applyOp (runOps initialWorld [Op.create 0]) (Op.destroy (0, 0))).entity_versions.getD 0 0
      = ((runOps initialWorld [Op.create 0]).entity_versions.getD 0 0 + 1) % 256 :=
  (generation_contract (runOps initialWorld [Op.create 0]) (Op.destroy (0, 0)) 0
      (by decide)).2.1 (0, 0) rfl (by decide) rfl

/-! ### The iterator walk equals a mask filter over the slot range -/

theorem iterCollect_findNext (masks : List Nat) (m sz : Nat) : ∀ cur,
    iterCollect masks m sz (iterFindNext masks m sz cur)
      = (List.range' cur (sz - cur)).filter (fun i => decide ((masks.getD i 0) &&& m = m)) := by
  intro cur
  rw [iterFindNext]
  by_cases h : cur < sz ∧ ¬ ((masks.getD cur 0) &&& m = m)
  · rw [if_pos h]
    have hrange : sz - cur = (sz - (cur + 1)) + 1 := by omega
    rw [hrange, List.range'_succ, List.filter_cons,
        iterCollect_findNext masks m sz (cur + 1),
        if_neg (by rw [decide_eq_true_iff]; exact h.2)]
  · rw [if_neg h]
    rw [iterCollect]
    by_cases hlt : cur < sz
    · have hp : (masks.getD cur 0) &&& m = m := by tauto
      rw [dif_pos hlt]
      have hrange : sz - cur = (sz - (cur + 1)) + 1 := by omega
      rw [hrange, List.range'_succ, List.filter_cons,
          iterCollect_findNext masks m sz (cur + 1),
          if_pos (by rw [decide_eq_true_iff]; exact hp)]
    · rw [dif_neg hlt]
      have hz : sz - cur = 0 := by omega
      rw [hz]
      rfl
termination_by cur => sz - cur
decreasing_by
  all_goals exact Nat.sub_lt_sub_left (by omega) (Nat.lt_succ_self cur)

/-- The yielded index sequence is exactly the mask filter over the slot
range 0 .. table length. -/
theorem iterIndices_eq_filter (w : World) (m : Nat) :
    iterIndices w m
      = (List.range w.entity_versions.length).filter
          (fun i => decide ((w.component_masks.getD i 0) &&& m = m)) := by
  unfold iterIndices
  rw [iterCollect_findNext, List.range_eq_range', Nat.sub_zero]

/-! ### C7: iteration mechanism and order -/

/-- C7: a query iterator for required mask M walks the slot indices below
the entity-table length captured at construction in strictly ascending
order, and yields index i exactly when i is below that length and
(mask[i] & M) == M. -/
theorem queryIteration_contract (w : World) (M : Nat) :
    List.Pairwise (· < ·) (iterIndices w M)
    ∧ ∀ i, (i ∈ iterIndices w M ↔
        i < w.entity_versions.length ∧ (w.component_masks.getD i 0) &&& M = M) := by
  constructor
  · rw [iterIndices_eq_filter]
    exact List.Pairwise.sublist (List.filter_sublist _) (List.pairwise_lt_range _)
  · intro i
    rw [iterIndices_eq_filter, List.mem_filter, List.mem_range, decide_eq_true_iff]

/-! ### C1: query completeness (liveness is not consulted) -/

/-- Counterexample for C1: after one create and one destroy there are no
live entities (the live count is zero and the only slot was destroyed),
yet the query over the empty mask still yields slot 0, because the
iterator tests only the mask and a destroyed slot has an empty mask. -/
theorem queryLiveness_counterexample :
    (runOps initialWorld [Op.create 0, Op.destroy (0, 0)]).live_count = 0
    ∧ ¬ isValid (runOps initialWorld [Op.create 0, Op.destroy (0, 0)]) (0, 0)
    ∧ iterIndices (runOps initialWorld [Op.create 0, Op.destroy (0, 0)]) 0 = [0] := by
  refine ⟨by decide, by decide, ?_⟩
  rw [iterIndices_eq_filter]
  decide

/-- C1 (amended): the set of slots yielded by a view for mask M equals
the set of slot indices below the captured table length whose stored mask
contains M, with no liveness condition; in particular the query over the
empty mask yields every slot index below the table length, including
destroyed and never-created slots. -/
theorem queryCompleteness_amended (w : World) (M : Nat) :
    iterIndices w M
      = (List.range w.entity_versions.length).filter
          (fun i => decide ((w.component_masks.getD i 0) &&& M = M))
    ∧ iterIndices w 0 = List.range w.entity_versions.length := by
  refine ⟨iterIndices_eq_filter w M, ?_⟩
  rw [iterIndices_eq_filter]
  apply List.filter_eq_self.mpr
  intro a _
  simp

/-! ### Mask inclusion -/

/-- maskLe a b: every bit of a is set in b, phrased as the source phrases
its mask tests: (a & b) == a. -/
def maskLe (a b : Nat) : Prop := a &&& b = a

theorem maskLe_iff {a b : Nat} :
    maskLe a b ↔ ∀ i, a.testBit i = true → b.testBit i = true := by
  constructor
  · intro h i hi
    have := congrArg (fun x => Nat.testBit x i) h
    simp only [Nat.testBit_land, hi, Bool.true_and] at this
    exact this
  · intro h
    apply Nat.eq_of_testBit_eq
    intro i
    rw [Nat.testBit_land]
    by_cases hi : a.testBit i = true
    · rw [hi, h i hi, Bool.true_and]
    · rw [Bool.not_eq_true] at hi
      rw [hi, Bool.false_and]

theorem maskLe_refl (a : Nat) : maskLe a a := Nat.and_self a

theorem maskLe_trans {a b c : Nat} (h1 : maskLe a b) (h2 : maskLe b c) : maskLe a c := by
  rw [maskLe_iff] at h1 h2 ⊢
  exact fun i hi => h2 i (h1 i hi)

theorem maskLe_zero (a : Nat) : maskLe 0 a := Nat.zero_and a

theorem maskLe_or {a b c : Nat} (h1 : maskLe a c) (h2 : maskLe b c) : maskLe (a ||| b) c := by
  rw [maskLe_iff] at h1 h2 ⊢
  intro i hi
  rw [Nat.testBit_lor] at hi
  rcases Bool.or_eq_true_iff.mp hi with h | h
  · exact h1 i h
  · exact h2 i h

theorem maskLe_two_pow {c z : Nat} (h : z.testBit c = true) : maskLe (2 ^ c) z := by
  rw [maskLe_iff]
  intro i hi
  by_cases hci : c = i
  · exact hci ▸ h
  · rw [Nat.testBit_two_pow_of_ne hci] at hi
    cases hi

theorem maskLe_or_left (a b : Nat) : maskLe a (a ||| b) := by
  rw [maskLe_iff]
  intro i hi
  rw [Nat.testBit_lor, hi, Bool.true_or]

/-! ### add never clears mask bits -/

theorem addComponent_maskLe (w : World) (c : Nat) (e : EntId) (j : Nat) :
    maskLe (w.component_masks.getD j 0) ((addComponent w c e).component_masks.getD j 0) := by
  unfold addComponent
  split
  · dsimp only
    by_cases hj : j = e.1
    · subst hj
      by_cases hlen : e.1 < w.component_masks.length
      · rw [getD_set_self _ _ _ hlen]
        exact maskLe_or_left _ _
      · rw [List.set_eq_of_length_le (Nat.le_of_not_lt hlen)]
        exact maskLe_refl _
    · rw [getD_set_ne _ _ (fun h => hj h.symm)]
      exact maskLe_refl _
  · exact maskLe_refl _

theorem addComponent_versions_eq (w : World) (c : Nat) (e : EntId) :
    (addComponent w c e).entity_versions = w.entity_versions :=
  addComponent_versions w c e

theorem isValid_addComponent (w : World) (c : Nat) (e e' : EntId) :
    isValid (addComponent w c e) e' ↔ isValid w e' := by
  unfold isValid
  rw [addComponent_versions]

theorem addComponent_masks_length (w : World) (c : Nat) (e : EntId) :
    (addComponent w c e).component_masks.length = w.component_masks.length := by
  unfold addComponent
  split
  · exact List.length_set _ _ _
  · rfl

theorem addComponent_testBit (w : World) (c : Nat) (e : EntId)
    (hv : isValid w e) (hc : c < maxComponents) (hi : e.1 < w.component_masks.length) :
    ((addComponent w c e).component_masks.getD e.1 0).testBit c = true := by
  unfold addComponent
  by_cases hbit : (w.component_masks.getD e.1 0).testBit c
  · rw [if_neg (by tauto)]
    exact hbit
  · rw [if_pos ⟨hv, hc, hbit⟩]
    dsimp only
    rw [getD_set_self _ _ _ hi, Nat.testBit_lor, Nat.testBit_two_pow_self, Bool.or_true]

theorem addFold_maskLe (cs : List Nat) (w : World) (e : EntId) (j : Nat) :
    maskLe (w.component_masks.getD j 0)
      ((cs.foldl (fun wa c => addComponent wa c e) w).component_masks.getD j 0) := by
  induction cs generalizing w with
  | nil => exact maskLe_refl _
  | cons c cs ih =>
    rw [List.foldl_cons]
    exact maskLe_trans (addComponent_maskLe w c e j) (ih (addComponent w c e))

theorem addFold_superset (cs : List Nat) (w : World) (e : EntId)
    (hv : isValid w e) (hi : e.1 < w.component_masks.length)
    (hcs : ∀ c ∈ cs, c < maxComponents) :
    maskLe (componentMaskOf cs)
      ((cs.foldl (fun wa c => addComponent wa c e) w).component_masks.getD e.1 0) := by
  induction cs generalizing w with
  | nil => exact maskLe_zero _
  | cons c cs ih =>
    rw [List.foldl_cons]
    have hc : c < maxComponents := hcs c (List.mem_cons_self c cs)
    have hbit : ((addComponent w c e).component_masks.getD e.1 0).testBit c = true :=
      addComponent_testBit w c e hv hc hi
    have hrest : maskLe (componentMaskOf cs)
        ((cs.foldl (fun wa c => addComponent wa c e) (addComponent w c e)).component_masks.getD
          e.1 0) :=
      ih (addComponent w c e) ((isValid_addComponent w c e e).mpr hv)
        (by rw [addComponent_masks_length]; exact hi)
        (fun c' h => hcs c' (List.mem_cons_of_mem c h))
    have hmono := addFold_maskLe cs (addComponent w c e) e e.1
    have hbit' : ((cs.foldl (fun wa c => addComponent wa c e)
        (addComponent w c e)).component_masks.getD e.1 0).testBit c = true :=
      (maskLe_iff.mp hmono) c hbit
    exact maskLe_or (maskLe_two_pow hbit') hrest

/-! ### slot and block facts about create_with_mask -/

theorem findNewEntityIndex_masks (w : World) (m : Nat) :
    (findNewEntityIndex w m).2.component_masks = w.component_masks := by
  rcases hfl : w.free_lists m with _ | ⟨i, rest⟩
  · rcases hbl : w.block_lists m with _ | ⟨b, bs⟩
    · simp [findNewEntityIndex, hfl, hbl, createNewBlock]
    · simp only [findNewEntityIndex, hfl, hbl]
      split
      · rfl
      · simp [createNewBlock]
  · simp [findNewEntityIndex, hfl]

theorem getEntity_fst (w : World) (i : Nat) : (getEntity w i).1 = i := rfl

theorem createWithMask_valid (w : World) (m : Nat)
    (hlen : w.component_masks.length = w.entity_versions.length) :
    isValid (createWithMask w m).2 (createWithMask w m).1
    ∧ (createWithMask w m).1.1 < (createWithMask w m).2.component_masks.length := by
  unfold createWithMask
  dsimp only
  have hver := findNewEntityIndex_versions { w with live_count := w.live_count + 1 } m
  have hmsk := findNewEntityIndex_masks { w with live_count := w.live_count + 1 } m
  split
  · next hlt =>
    refine ⟨⟨?_, rfl⟩, ?_⟩
    · rw [getEntity_fst, listResize_length]
      omega
    · rw [getEntity_fst, listResize_length]
      omega
  · next hlt =>
    refine ⟨⟨?_, rfl⟩, ?_⟩
    · rw [getEntity_fst]
      omega
    · rw [getEntity_fst, hmsk]
      have h2 := hlen
      have h4 : ({ w with live_count := w.live_count + 1 } : World).component_masks.length
          = w.component_masks.length := rfl
      have h5 := congrArg List.length hver
      have h6 : ({ w with live_count := w.live_count + 1 } : World).entity_versions.length
          = w.entity_versions.length := rfl
      omega

theorem findNewEntityIndex_freshBlock (w : World) (m : Nat)
    (h1 : w.free_lists m = []) (h2 : w.block_lists m = []) :
    (findNewEntityIndex w m).1 = w.block_count * cacheLineSize
    ∧ (findNewEntityIndex w m).2.index_to_component_mask
        = (listResize w.index_to_component_mask (w.block_count + 1)).set w.block_count m := by
  simp [findNewEntityIndex, h1, h2, createNewBlock]

theorem createWithMask_freshBlock (w : World) (m : Nat)
    (h1 : w.free_lists m = []) (h2 : w.block_lists m = []) :
    (createWithMask w m).1.1 = w.block_count * cacheLineSize
    ∧ (createWithMask w m).2.index_to_component_mask.getD w.block_count 0 = m := by
  unfold createWithMask
  dsimp only
  obtain ⟨hidx, hmask⟩ :=
    findNewEntityIndex_freshBlock { w with live_count := w.live_count + 1 } m h1 h2
  have hset : ((listResize w.index_to_component_mask (w.block_count + 1)).set w.block_count
      m).getD w.block_count 0 = m :=
    getD_set_self _ _ _ (by rw [listResize_length]; omega)
  split
  · exact ⟨hidx, by rw [hmask]; exact hset⟩
  · exact ⟨hidx, by rw [hmask]; exact hset⟩

theorem addFold_idxmask (cs : List Nat) (w : World) (e : EntId) :
    (cs.foldl (fun wa c => addComponent wa c e) w).index_to_component_mask
      = w.index_to_component_mask := by
  induction cs generalizing w with
  | nil => rfl
  | cons c cs ih =>
    rw [List.foldl_cons, ih]
    unfold addComponent
    split <;> rfl

instance (a b : Nat) : Decidable (maskLe a b) := by
  unfold maskLe; infer_instance

/-! ### C5: block-mask superset invariant -/

/-- Counterexample for C5: create an entity with component 0 (its block
is created with mask 1), then remove component 0.  The slot is still
live, its block's recorded mask is 1, but the slot's mask no longer
contains the block mask: remove_component freely clears block-mask
bits. -/
theorem blockMaskSuperset_counterexample :
    isValid (runOps initialWorld [Op.createWith [0], Op.remove 0 (0, 0)]) (0, 0)
    ∧ (runOps initialWorld
        [Op.createWith [0], Op.remove 0 (0, 0)]).index_to_component_mask.getD
          (0 / cacheLineSize) 0 = 1
    ∧ ¬ maskLe
        ((runOps initialWorld
          [Op.createWith [0], Op.remove 0 (0, 0)]).index_to_component_mask.getD
            (0 / cacheLineSize) 0)
        ((runOps initialWorld
          [Op.createWith [0], Op.remove 0 (0, 0)]).component_masks.getD 0 0) := by
  exact ⟨by decide, by decide, by decide⟩

/-- C5 (amended): add operations never drop any mask bit, and a
create_with that allocates into a freshly created block (empty free list
and no prior blocks for the combined mask) leaves the slot's mask a
superset of the block's recorded mask; but remove CAN clear a bit that is
set in the block's mask, so the superset invariant does not persist
across remove (see the counterexample). -/
theorem blockMaskSuperset_amended :
    (∀ (w : World) (c : Nat) (e : EntId) (j : Nat),
      maskLe (w.component_masks.getD j 0) ((addComponent w c e).component_masks.getD j 0))
    ∧ (∀ (w : World) (cs : List Nat),
      w.free_lists (componentMaskOf cs) = [] →
      w.block_lists (componentMaskOf cs) = [] →
      (∀ c ∈ cs, c < maxComponents) →
      w.component_masks.length = w.entity_versions.length →
      (createWithComponents w cs).2.index_to_component_mask.getD
          ((createWithComponents w cs).1.1 / cacheLineSize) 0 = componentMaskOf cs
      ∧ maskLe (componentMaskOf cs)
          ((createWithComponents w cs).2.component_masks.getD
            (createWithComponents w cs).1.1 0)) := by
  refine ⟨addComponent_maskLe, ?_⟩
  intro w cs h1 h2 h3 hlen
  obtain ⟨hidx, hmaskblk⟩ := createWithMask_freshBlock w (componentMaskOf cs) h1 h2
  obtain ⟨hv, hlength⟩ := createWithMask_valid w (componentMaskOf cs) hlen
  have hdiv : w.block_count * cacheLineSize / cacheLineSize = w.block_count := by
    simp only [cacheLineSize]
    omega
  constructor
  · show (cs.foldl (fun wa c => addComponent wa c (createWithMask w (componentMaskOf cs)).1)
        (createWithMask w (componentMaskOf cs)).2).index_to_component_mask.getD
          ((createWithMask w (componentMaskOf cs)).1.1 / cacheLineSize) 0 = componentMaskOf cs
    rw [addFold_idxmask, hidx, hdiv]
    exact hmaskblk
  · show maskLe (componentMaskOf cs)
        ((cs.foldl (fun wa c => addComponent wa c (createWithMask w (componentMaskOf cs)).1)
          (createWithMask w (componentMaskOf cs)).2).component_masks.getD
            (createWithMask w (componentMaskOf cs)).1.1 0)
    exact addFold_superset cs _ _ hv hlength h3

/-- Witness for C5's amended statement: creating an entity with component
0 in a fresh world puts it in a block recorded with mask 1, and the
slot's mask contains that block mask. -/
theorem blockMaskSuperset_amended_witness :
    (createWithComponents initialWorld [0]).2.index_to_component_mask.getD
        ((createWithComponents initialWorld [0]).1.1 / cacheLineSize) 0 = componentMaskOf [0]
    ∧ maskLe (componentMaskOf [0])
        ((createWithComponents initialWorld [0]).2.component_masks.getD
          (createWithComponents initialWorld [0]).1.1 0) :=
  blockMaskSuperset_amended.2 initialWorld [0] rfl rfl (by decide) rfl

/-! ### C4: bulk creation is not equivalent to sequential creation -/

/-- C4 (code bug demonstration): from a fresh manager, create_many(1)
returns id (0,0) but records the new block's next-free offset as 0 (the
bulk fill loop increments only a local copy of the offset and never
writes it back), whereas one sequential create records offset 1.  A
subsequent single create after the bulk call therefore hands out slot 0
again, producing a second live entity with the identical id (0,0) and a
live count of 2, while after two sequential creates the second id is
(1,0).  Also, the free-list drain loop's size_t post-decrement
underflows to 2^64 - 1 whenever the free list holds more entries than
requested. -/
theorem bulkCreate_bug :
    (createManyWithMask initialWorld 0 1).1 = [(0, 0)]
    ∧ (createManyWithMask initialWorld 0 1).2.next_free_indexes = [0]
    ∧ (createWithMask (createManyWithMask initialWorld 0 1).2 0).1 = ((0 : Nat), (0 : Nat))
    ∧ (createWithMask (createManyWithMask initialWorld 0 1).2 0).2.live_count = 2
    ∧ (createWithMask initialWorld 0).2.next_free_indexes = [1]
    ∧ (createWithMask (createWithMask initialWorld 0).2 0).1 = ((1 : Nat), (0 : Nat))
    ∧ (drainFreeList [5, 6] 1).2.2 = usizeMod - 1 := by
  exact ⟨by decide, by decide, by decide, by decide, by decide, by decide, by decide⟩

end OpenEcs
